import Mathlib

/-!
Verification of the workflow-orchestration core of the MCP business agent.

This file shallowly embeds the Python sources
`mcp_business_agent/workflow_manager.py`, `mcp_business_agent/models.py`
and `mcp_business_agent/mcp_client.py`:

* pure data (steps, definitions, execution records) becomes Lean structures;
* the stateful execution loops become explicit state-passing functions;
* the unreliable remote tool server becomes an oracle parameter giving, for
  each tool name and attempt index, either returned data or the message of
  the exception raised by `WorkflowManager._call_mcp_tool`;
* Python `set` iteration order (used by `_execute_sequential_workflow` and
  `_execute_parallel_workflow` for `remaining_steps`) is unspecified, so the
  loops take the iteration order as an explicit list parameter;
* loops whose termination is not structural carry a fuel argument; the
  wrappers instantiate the fuel so that the out-of-fuel branches are
  unreachable for the runs the theorems speak about;
* wall-clock timestamps (`started_at`, `completed_at`) are not modelled;
  `asyncio.sleep` calls are recorded as a list of slept durations.
-/

/-- `WorkflowStatus` from models.py (values pending/in_progress/completed/
failed/partially_completed/cancelled). -/
inductive WorkflowStatus where
  | pending
  | in_progress
  | completed
  | failed
  | partCompleted  -- PARTIALLY_COMPLETED in the source; name shortened
  | cancelled
deriving DecidableEq, Repr

/-- `ToolExecutionStatus` from models.py. -/
inductive ToolExecutionStatus where
  | pending
  | running
  | completed
  | failed
  | skipped
deriving DecidableEq, Repr

/-- `WorkflowStep` from models.py: the immutable declarative fields.
Parameter values are modelled as strings (the claims never inspect other
value shapes).  The mutable per-step execution fields (status, error,
retry_count) are threaded separately as `StepState`. -/
structure WorkflowStep where
  step_id : String
  name : String
  tool_name : String
  parameters : List (String × String) := []
  depends_on : List String := []
  max_retries : Nat := 3
deriving DecidableEq, Repr

/-- `WorkflowDefinition` from models.py (creation metadata omitted). -/
structure WorkflowDefinition where
  workflow_id : String
  name : String
  description : String
  steps : List WorkflowStep
  timeout_minutes : Nat := 30
  parallel_execution : Bool := false
deriving DecidableEq, Repr

/-- `WorkflowExecution` from models.py.  `results` and `errors` are the
per-step maps (association lists keyed by step id). -/
structure WorkflowExecution where
  execution_id : String
  workflow_id : String
  status : WorkflowStatus := .pending
  current_step : Option String := none
  completed_steps : List String := []
  failed_steps : List String := []
  results : List (String × String) := []
  errors : List (String × String) := []
  progress_percentage : ℚ := 0
deriving DecidableEq, Repr

/-- The exception classes of workflow_manager.py (`WorkflowError` and its
subclasses `WorkflowTimeoutError`, `WorkflowStepError`,
`WorkflowDependencyError`), carrying `str(e)`. -/
inductive WorkflowErr where
  | workflowError (msg : String)
  | workflowTimeoutError (msg : String)
  | workflowStepError (msg : String)
  | workflowDependencyError (msg : String)
deriving DecidableEq, Repr

/-- `str(e)` of a raised workflow exception. -/
def WorkflowErr.msg : WorkflowErr → String
  | .workflowError m => m
  | .workflowTimeoutError m => m
  | .workflowStepError m => m
  | .workflowDependencyError m => m

/-- Mutable per-step fields of `WorkflowStep` (status/error/retry_count),
set by `_execute_step`. -/
structure StepState where
  status : ToolExecutionStatus := .pending
  error : Option String := none
  retry_count : Nat := 0
deriving DecidableEq, Repr

/-- Outcome of one `_call_mcp_tool(tool_name, ...)` invocation, per tool
name and attempt index within a step's retry loop: `.ok data` models a
returned response, `.error m` models a raised exception whose `str` is
`m`. -/
def ToolOracle : Type := String → Nat → Except String String

/-- Boolean list membership used wherever the Python code tests
`x in some_list`. -/
def memB (a : String) (l : List String) : Bool := decide (a ∈ l)

/-- Result of `_execute_step`: the updated execution record, the final
mutable step fields, the exception it raised (if any), the number of
`_call_mcp_tool` invocations it performed, and the durations of the
`asyncio.sleep(2 ** attempt)` backoff waits between attempts. -/
structure StepRunResult where
  exec : WorkflowExecution
  stepState : StepState
  raised : Option WorkflowErr
  invocations : Nat
  sleeps : List Nat
deriving Repr

/-- The `for attempt in range(step.max_retries + 1)` retry loop of
`WorkflowManager._execute_step` (workflow_manager.py lines 401-434).
`fuel` counts the attempts still available; callers pass
`step.max_retries + 1 - attempt`, which makes the out-of-fuel branch
(Python's unreachable loop fall-through) dead. -/
def execute_step_loop (oracle : ToolOracle) (step : WorkflowStep) :
    Nat → Nat → WorkflowExecution → StepState → StepRunResult
  | _attempt, 0, exec, st => ⟨exec, st, none, 0, []⟩
  | attempt, fuel + 1, exec, st =>
    match oracle step.tool_name attempt with
    | .ok data =>
      ⟨{ exec with
           completed_steps := exec.completed_steps ++ [step.step_id],
           results := exec.results ++ [(step.step_id, data)] },
       { st with status := .completed }, none, 1, []⟩
    | .error m =>
      let st' : StepState := { st with error := some m, retry_count := attempt }
      if attempt < step.max_retries then
        let r := execute_step_loop oracle step (attempt + 1) fuel exec st'
        ⟨r.exec, r.stepState, r.raised, r.invocations + 1, 2 ^ attempt :: r.sleeps⟩
      else
        ⟨{ exec with
             failed_steps := exec.failed_steps ++ [step.step_id],
             errors := exec.errors ++ [(step.step_id, m)] },
         { st' with status := .failed },
         some (.workflowStepError ("Step " ++ step.step_id ++ " failed: " ++ m)),
         1, []⟩

/-- `WorkflowManager._execute_step`: sets `execution.current_step`, marks the
step running, then runs the retry loop. -/
def execute_step (oracle : ToolOracle) (step : WorkflowStep)
    (exec : WorkflowExecution) : StepRunResult :=
  execute_step_loop oracle step 0 (step.max_retries + 1)
    { exec with current_step := some step.step_id }
    { status := .running, error := none, retry_count := 0 }

/-- `step_map[step_id]` lookup used by the execution loops.  The ids handed
to the loops all come from the step list, so the default is dead. -/
def find_step (steps : List WorkflowStep) (sid : String) : WorkflowStep :=
  (steps.find? (fun s => s.step_id == sid)).getD
    { step_id := sid, name := "", tool_name := "" }

/-- `depends_on` of the step with the given id (empty when absent, matching
`step_map.get(step_id)` returning `None`). -/
def deps_of (steps : List WorkflowStep) (sid : String) : List String :=
  ((steps.find? (fun s => s.step_id == sid)).map (fun s => s.depends_on)).getD []

/-- Progress update after a step resolves (workflow_manager.py lines
336-339 and 388-391): `(len(completed)+len(failed)) / total * 100`. -/
def update_progress (steps : List WorkflowStep) (exec : WorkflowExecution) :
    WorkflowExecution :=
  { exec with progress_percentage :=
      ((exec.completed_steps.length + exec.failed_steps.length : ℚ) /
        (steps.length : ℚ)) * 100 }

/-- A step is ready when all of its dependencies are in
`execution.completed_steps` (lines 308-311 / 354-357). -/
def ready_step (steps : List WorkflowStep) (exec : WorkflowExecution)
    (sid : String) : Bool :=
  (deps_of steps sid).all (fun d => memB d exec.completed_steps)

/-- A remaining step is blocked when one of its direct dependencies is in
`execution.failed_steps` (lines 315-320). -/
def blocked_step (steps : List WorkflowStep) (exec : WorkflowExecution)
    (sid : String) : Bool :=
  (deps_of steps sid).any (fun d => memB d exec.failed_steps)

/-- Result of the sequential driving loop: the execution record, the
exception that escaped the loop (if any), and the ids on which
`_execute_step` was called, in order. -/
structure SeqResult where
  exec : WorkflowExecution
  raised : Option WorkflowErr
  trace : List String
deriving Repr

/-- The `while remaining_steps:` loop of
`WorkflowManager._execute_sequential_workflow` (lines 296-339).
`remaining` is the iteration order of the Python set `remaining_steps`;
each loop turn removes at least one element or returns, so fuel
`remaining.length` is always enough and the out-of-fuel branch is dead.
Note that the `await self._execute_step(...)` on line 333 is not guarded
by any `try`, so an exception raised by `_execute_step` escapes the loop
immediately (the `raised` field). -/
def execute_sequential_workflow (oracle : ToolOracle) (steps : List WorkflowStep) :
    Nat → List String → WorkflowExecution → SeqResult
  | _fuel, [], exec => ⟨exec, none, []⟩
  | 0, _ :: _, exec => ⟨exec, none, []⟩
  | fuel + 1, r0 :: rs, exec =>
    let remaining := r0 :: rs
    match remaining.filter (ready_step steps exec) with
    | [] =>
      match remaining.filter (blocked_step steps exec) with
      | [] =>
        ⟨exec,
         some (.workflowError "No ready steps found - possible circular dependency"),
         []⟩
      | f0 :: fs =>
        let failedDeps := f0 :: fs
        let exec' := { exec with failed_steps := exec.failed_steps ++ failedDeps }
        execute_sequential_workflow oracle steps fuel
          (remaining.filter (fun sid => !(memB sid failedDeps))) exec'
    | sid :: _ =>
      let r := execute_step oracle (find_step steps sid) exec
      match r.raised with
      | some e => ⟨r.exec, some e, [sid]⟩
      | none =>
        let rest := execute_sequential_workflow oracle steps fuel
          (remaining.erase sid) (update_progress steps r.exec)
        ⟨rest.exec, rest.raised, sid :: rest.trace⟩

/-- `WorkflowManager._apply_runtime_parameters` (lines 266-294): replaces
parameter values of the form `${key}` when `key` is among the runtime
parameters; unresolved placeholders stay as literal strings. -/
def apply_runtime_parameters (steps : List WorkflowStep)
    (params : List (String × String)) : List WorkflowStep :=
  steps.map (fun step =>
    { step with parameters := step.parameters.map (fun kv =>
        if kv.2.startsWith "$\x7b" && kv.2.endsWith "\x7d" then
          let pname := (kv.2.drop 2).dropRight 1
          match params.lookup pname with
          | some v => (kv.1, v)
          | none => kv
        else kv) })

/-- Final-status determination of `execute_workflow` (lines 239-245):
all step ids completed → completed; otherwise failed_steps non-empty →
partially completed; otherwise failed. -/
def final_status (steps : List WorkflowStep) (exec : WorkflowExecution) :
    WorkflowStatus :=
  if steps.all (fun s => memB s.step_id exec.completed_steps) then .completed
  else if !exec.failed_steps.isEmpty then .partCompleted
  else .failed

/-- Result of `execute_workflow`: the (retained) execution record and the
exception it re-raised to its caller, if any. -/
structure WorkflowRunResult where
  exec : WorkflowExecution
  raised : Option WorkflowErr
  trace : List String
deriving Repr

/-- `WorkflowManager.execute_workflow` (lines 218-264) specialized to the
sequential branch (`parallel_execution = False`).  `order` is the
iteration order of `set(step.step_id for step in steps)`.  The
`except asyncio.TimeoutError` branch (lines 252-256) is modelled by the
fact that none of the modelled exceptions is an `asyncio.TimeoutError`,
so every escaped exception goes through the generic handler (lines
258-262), which marks the execution failed and re-raises
`WorkflowError(f"Workflow execution failed: {e}")`. -/
def execute_workflow (oracle : ToolOracle) (order : List String)
    (wd : WorkflowDefinition) (params : List (String × String))
    (eid : String) : WorkflowRunResult :=
  let exec0 : WorkflowExecution :=
    { execution_id := eid, workflow_id := wd.workflow_id, status := .in_progress }
  let steps := apply_runtime_parameters wd.steps params
  let r := execute_sequential_workflow oracle steps order.length order exec0
  match r.raised with
  | none =>
    ⟨{ r.exec with status := final_status steps r.exec, progress_percentage := 100 },
     none, r.trace⟩
  | some e =>
    ⟨{ r.exec with status := .failed },
     some (.workflowError ("Workflow execution failed: " ++ e.msg)), r.trace⟩

/-- `WorkflowManager.cancel_workflow` (lines 451-459) acting on the
`active_workflows` registry: if the execution id is tracked, its status is
set to CANCELLED (whatever it was) and True is returned; otherwise False. -/
def cancel_workflow (active : List (String × WorkflowExecution))
    (eid : String) : List (String × WorkflowExecution) × Bool :=
  if (active.lookup eid).isSome then
    (active.map (fun p =>
       if p.1 == eid then (p.1, { p.2 with status := .cancelled }) else p),
     true)
  else (active, false)

/-- State of the `while remaining_steps or running_tasks:` loop of
`WorkflowManager._execute_parallel_workflow` (lines 341-391):
ids not yet started, ids with an in-flight task, and the shared
execution record. -/
structure ParState where
  remaining : List String
  running : List String
  exec : WorkflowExecution
deriving DecidableEq, Repr

/-- Completion of the tasks a scheduler round reports as done
(lines 372-386): each done task is removed from `running_tasks` and its
`_execute_step` effects are applied; the `try/except` around `await task`
swallows the `WorkflowStepError` of failed steps. -/
def process_done (oracle : ToolOracle) (steps : List WorkflowStep)
    (done : List String) (st : ParState) : ParState :=
  done.foldl (fun s d =>
    ⟨s.remaining, s.running.erase d,
     (execute_step oracle (find_step steps d) s.exec).exec⟩) st

/-- `WorkflowManager._execute_parallel_workflow` (lines 341-391).
`sched n running` models which of the awaited tasks `asyncio.wait(...,
FIRST_COMPLETED)` reports as done in loop turn `n` (intersected with the
running set, as `asyncio.wait` only returns awaited tasks).  The loop is
genuinely non-terminating on some inputs (when no step is ready and no
task is running but steps remain), so it takes fuel and returns `none`
when the fuel is exhausted before the loop condition turns false. -/
def execute_parallel_workflow (oracle : ToolOracle)
    (sched : Nat → List String → List String) (steps : List WorkflowStep) :
    Nat → Nat → ParState → Option ParState
  | 0, _, _ => none
  | fuel + 1, n, st =>
    if st.remaining.isEmpty && st.running.isEmpty then some st
    else
      let ready := st.remaining.filter (ready_step steps st.exec)
      let running' := st.running ++ ready
      let remaining' := st.remaining.filter (fun sid => !(memB sid ready))
      if running'.isEmpty then
        execute_parallel_workflow oracle sched steps fuel (n + 1)
          ⟨remaining', running', st.exec⟩
      else
        let done := (sched n running').filter (fun t => memB t running')
        let st' := process_done oracle steps done ⟨remaining', running', st.exec⟩
        execute_parallel_workflow oracle sched steps fuel (n + 1)
          { st' with exec := update_progress steps st'.exec }

/-- `WorkflowManager.execute_workflow` specialized to the parallel branch
(`parallel_execution = True`).  Step exceptions never escape the parallel
loop (they are swallowed at lines 383-386), so the normal-return epilogue
(lines 239-248) always runs when the loop finishes; `none` means the loop
never finished within the given fuel. -/
def execute_workflow_par (oracle : ToolOracle)
    (sched : Nat → List String → List String) (fuel : Nat)
    (order : List String) (wd : WorkflowDefinition)
    (params : List (String × String)) (eid : String) :
    Option WorkflowRunResult :=
  let exec0 : WorkflowExecution :=
    { execution_id := eid, workflow_id := wd.workflow_id, status := .in_progress }
  let steps := apply_runtime_parameters wd.steps params
  match execute_parallel_workflow oracle sched steps fuel 0 ⟨order, [], exec0⟩ with
  | none => none
  | some st =>
    let ex :=
      { st.exec with
          status := final_status steps st.exec, progress_percentage := 100 }
    some ⟨ex, none, []⟩

/-- The dependency relation of a step list: `step_edge steps a b` holds when
the step with id `a` lists `b` in its `depends_on`.  (`deps_of` resolves
ids through the same lookup the Python `step_map` performs; the two can
only disagree on duplicate ids, which the validator rejects before the
cycle check runs.) -/
def step_edge (steps : List WorkflowStep) (a b : String) : Prop :=
  b ∈ deps_of steps a

/-- A cyclic dependency chain exists: some id reaches itself in one or more
`depends_on` hops. -/
def has_cycle (steps : List WorkflowStep) : Prop :=
  ∃ a, Relation.TransGen (step_edge steps) a a

/-- The list of step ids of a definition, in definition order. -/
def step_ids (steps : List WorkflowStep) : List String :=
  steps.map (fun s => s.step_id)

/-- Every dependency of every step names a step of the same definition
(no dangling dependencies). -/
def deps_closed (steps : List WorkflowStep) : Prop :=
  ∀ s ∈ steps, ∀ d ∈ s.depends_on, d ∈ step_ids steps

/-- No cycle is reachable from `a` along dependency edges. -/
def cycle_free (steps : List WorkflowStep) (a : String) : Prop :=
  ¬ ∃ z, Relation.ReflTransGen (step_edge steps) a z ∧
      Relation.TransGen (step_edge steps) z z

/-- DFS invariant: every visited node that is not on the active path is
fully explored and no cycle is reachable from it. -/
def visited_cycle_free (steps : List WorkflowStep) (v p : List String) : Prop :=
  ∀ a ∈ v, a ∉ p → cycle_free steps a

/-- Number of step ids not yet visited; the DFS recursion depth bound. -/
def fresh_count (steps : List WorkflowStep) (v : List String) : Nat :=
  ((step_ids steps).toFinset \ v.toFinset).card

/-- Inner loop of `has_circular_dependency` over the dependencies of the
node being visited (`for dep in step.depends_on: if has_circular_dependency
(dep, visited, path): return True`), threading the mutated `visited` set
and stopping at the first `True`. -/
def dfs_fold (f : String → List String → Bool × List String) :
    List String → List String → Bool × List String
  | [], visited => (false, visited)
  | d :: ds, visited =>
    let r := f d visited
    if r.1 then (true, r.2) else dfs_fold f ds r.2

/-- `has_circular_dependency(step_id, visited, path)` from
`WorkflowManager._check_circular_dependencies` (lines 166-182).  `visited`
is mutated in place in Python and is therefore threaded through; `path` is
restored on every `False` return, so it is a plain parameter.  Python's
recursion needs no fuel (every recursive frame adds a fresh node to
`visited`); the fuel makes the recursion structural, and callers pass
more fuel than there are ids, which keeps the out-of-fuel branch dead. -/
def has_circular_dependency (steps : List WorkflowStep) :
    Nat → String → List String → List String → Bool × List String
  | 0, _, visited, _ => (true, visited)
  | fuel + 1, x, visited, path =>
    if memB x path then (true, visited)
    else if memB x visited then (false, visited)
    else
      dfs_fold (fun d vis => has_circular_dependency steps fuel d vis (x :: path))
        (deps_of steps x) (x :: visited)

/-- The top-level loop of `_check_circular_dependencies` (lines 184-188):
visit every step id not yet visited with an empty path; `true` means the
`WorkflowDependencyError` is raised. -/
def check_circular_loop (steps : List WorkflowStep) (fuel : Nat) :
    List WorkflowStep → List String → Bool
  | [], _ => false
  | s :: ss, visited =>
    if memB s.step_id visited then check_circular_loop steps fuel ss visited
    else
      let r := has_circular_dependency steps fuel s.step_id visited []
      if r.1 then true else check_circular_loop steps fuel ss r.2

/-- `WorkflowManager._check_circular_dependencies` (lines 162-188):
returns `true` exactly when the Python function raises
`WorkflowDependencyError("Circular dependency detected in workflow")`. -/
def check_circular_dependencies (steps : List WorkflowStep) : Bool :=
  check_circular_loop steps (steps.length + 1) steps []

/-- First dangling dependency `(step_id, dep)` in definition order, if any
(lines 153-157). -/
def first_dangling (steps : List WorkflowStep) : Option (String × String) :=
  steps.findSome? (fun s =>
    (s.depends_on.find? (fun d => !(memB d (steps.map (fun t => t.step_id))))).map
      (fun d => (s.step_id, d)))

/-- `WorkflowManager._validate_workflow_definition` (lines 145-160):
duplicate-id check (`len(set(ids)) != len(steps)`), then dangling
dependencies, then the cycle check; `some e` is the exception raised. -/
def validate_workflow_definition (steps : List WorkflowStep) :
    Option WorkflowErr :=
  if (steps.map (fun s => s.step_id)).dedup.length ≠ steps.length then
    some (.workflowError "Duplicate step IDs found in workflow")
  else
    match first_dangling steps with
    | some sd =>
      some (.workflowDependencyError
        ("Step " ++ sd.1 ++ " depends on non-existent step " ++ sd.2))
    | none =>
      if check_circular_dependencies steps then
        some (.workflowDependencyError "Circular dependency detected in workflow")
      else none

/-- Exceptions raised synchronously by `create_workflow`: a
`WorkflowError`/`WorkflowDependencyError` out of
`_validate_workflow_definition`, or the pydantic `ValidationError` raised
when the `WorkflowDefinition` object itself is constructed. -/
inductive CreateWorkflowErr where
  | workflowErr (e : WorkflowErr)
  | validationError (msg : String)
deriving DecidableEq, Repr

/-- `WorkflowManager.create_workflow` (lines 93-143): builds the step
objects, validates them (duplicates, dangling dependencies, cycles), and
only then constructs the `WorkflowDefinition` (line 131), at which point
pydantic enforces the field bound `timeout_minutes: ge=1, le=480`
(models.py line 195) and raises `ValidationError` when it is violated;
`Except.error` is the synchronously raised exception.  (The field is an
`int` in Python; negative values, rejected like 0, have no separate
representation under `Nat`.) -/
def create_workflow (workflow_id nm description : String)
    (steps : List WorkflowStep) (timeout_minutes : Nat)
    (parallel_execution : Bool) : Except CreateWorkflowErr WorkflowDefinition :=
  match validate_workflow_definition steps with
  | some e => .error (.workflowErr e)
  | none =>
    if timeout_minutes < 1 ∨ 480 < timeout_minutes then
      .error (.validationError
        "timeout_minutes: input should be greater than or equal to 1 and less than or equal to 480")
    else
      .ok { workflow_id := workflow_id, name := nm, description := description,
            steps := steps, timeout_minutes := timeout_minutes,
            parallel_execution := parallel_execution }

/-- `MCPRequestStatus` from mcp_client.py. -/
inductive MCPRequestStatus where
  | success
  | failed
  | timeout
  | rate_limited
  | auth_error
  | server_error
deriving DecidableEq, Repr

/-- `MCPResponse` from mcp_client.py (the latency field is not modelled). -/
structure MCPResponse where
  success : Bool
  data : Option String := none
  error : Option String := none
  tool_name : Option String := none
  status : MCPRequestStatus := .success
  retry_count : Nat := 0
deriving DecidableEq, Repr

/-- The `MCPError` exception hierarchy of mcp_client.py. -/
inductive MCPErr where
  | mcpError (msg : String)
  | mcpAuthError (msg : String)
  | mcpTimeoutError (msg : String)
  | mcpToolError (msg : String)
  | mcpRateLimitError (msg : String)
  | mcpServerError (msg : String)
deriving DecidableEq, Repr

/-- Parsed body of an HTTP 200 JSON-RPC reply: either a JSON-RPC error
object (code, message) or a result payload. -/
inductive RpcBody where
  | rpcError (code : Int) (msg : String)
  | rpcResult (data : String)
deriving DecidableEq, Repr

/-- What `self._client.post(...)` does on one attempt: a 200 reply with a
parsed JSON-RPC body, a non-200 status code together with the `error`
field `_safe_json_parse` would extract (or `none` when absent), or one of
the exception classes the `except` clauses of `call_tool` distinguish. -/
inductive HttpAttempt where
  | ok200 (body : RpcBody)
  | httpStatus (code : Nat) (errField : Option String)
  | timeoutExc
  | connectExc (msg : String)
  | otherExc (msg : String)
deriving DecidableEq, Repr

/-- Per-attempt behaviour of the MCP server as seen by `call_tool`. -/
def HttpOracle : Type := Nat → HttpAttempt

instance {ε α : Type} [DecidableEq ε] [DecidableEq α] : DecidableEq (Except ε α)
  | .ok a, .ok b =>
    if h : a = b then .isTrue (by rw [h]) else .isFalse (by simp [h])
  | .ok _, .error _ => .isFalse (by simp)
  | .error _, .ok _ => .isFalse (by simp)
  | .error e, .error f =>
    if h : e = f then .isTrue (by rw [h]) else .isFalse (by simp [h])

/-- Result of `call_tool`: the returned response or raised exception,
the number of HTTP requests made, and the backoff sleeps performed. -/
structure CallResult where
  result : Except MCPErr MCPResponse
  invocations : Nat
  sleeps : List Nat
deriving DecidableEq, Repr

/-- The `for attempt in range(retry_attempts + 1)` loop of
`MCPClient.call_tool` (mcp_client.py lines 194-359).  Crucially, the
`raise MCPAuthError`, `raise MCPRateLimitError` and `raise MCPServerError`
statements (lines 274, 287, 300) sit inside the `try` body, so they are
caught by the trailing `except Exception` handler (lines 340-348), which
sleeps and retries while attempts remain and otherwise raises
`MCPToolError(f"Unexpected error calling {tool_name}: {e}")`.  Only the
exceptions raised inside `except` handlers (timeout at 328, connect at
338, unexpected at 348) propagate to the caller.  `fuel` is
`retry_attempts + 1 - attempt`, making the loop fall-through (lines
354-359) dead code, as it is in Python. -/
def call_tool_loop (oracle : HttpOracle) (tool : String) (retries : Nat) :
    Nat → Nat → CallResult
  | _attempt, 0 =>
    ⟨.error (.mcpToolError ("All retry attempts failed for " ++ tool)), 0, []⟩
  | attempt, fuel + 1 =>
    let genericRetry : String → CallResult := fun m =>
      if attempt < retries then
        let r := call_tool_loop oracle tool retries (attempt + 1) fuel
        ⟨r.result, r.invocations + 1, min (2 ^ attempt) 30 :: r.sleeps⟩
      else
        ⟨.error (.mcpToolError ("Unexpected error calling " ++ tool ++ ": " ++ m)),
         1, []⟩
    match oracle attempt with
    | .ok200 (.rpcError code msg) =>
      let emsg :=
        if code = -32601 then "Tool \x27" ++ tool ++ "\x27 not found" else msg
      ⟨.ok { success := false, error := some emsg, tool_name := some tool,
             status := .failed, retry_count := attempt }, 1, []⟩
    | .ok200 (.rpcResult d) =>
      ⟨.ok { success := true, data := some d, tool_name := some tool,
             status := .success, retry_count := attempt }, 1, []⟩
    | .httpStatus code errField =>
      if code = 401 then
        genericRetry
          ("Authentication failed: Invalid GitHub OAuth token for tool " ++ tool)
      else if code = 429 then
        if attempt < retries then
          let r := call_tool_loop oracle tool retries (attempt + 1) fuel
          ⟨r.result, r.invocations + 1, min (2 ^ attempt) 60 :: r.sleeps⟩
        else genericRetry ("Rate limit exceeded for tool " ++ tool)
      else if 500 ≤ code then
        let emsg := errField.getD ("Server error: " ++ toString code)
        if attempt < retries then
          let r := call_tool_loop oracle tool retries (attempt + 1) fuel
          ⟨r.result, r.invocations + 1, min (2 ^ attempt) 30 :: r.sleeps⟩
        else genericRetry ("Server error calling " ++ tool ++ ": " ++ emsg)
      else
        let emsg := errField.getD ("Client error: " ++ toString code)
        ⟨.ok { success := false, error := some emsg, tool_name := some tool,
               status := .failed, retry_count := attempt }, 1, []⟩
    | .timeoutExc =>
      if attempt < retries then
        let r := call_tool_loop oracle tool retries (attempt + 1) fuel
        ⟨r.result, r.invocations + 1, min (2 ^ attempt) 30 :: r.sleeps⟩
      else
        ⟨.error (.mcpTimeoutError
           ("Timeout calling " ++ tool ++ " after " ++ toString retries ++ " retries")),
         1, []⟩
    | .connectExc m =>
      if attempt < retries then
        let r := call_tool_loop oracle tool retries (attempt + 1) fuel
        ⟨r.result, r.invocations + 1, min (2 ^ attempt) 30 :: r.sleeps⟩
      else
        ⟨.error (.mcpError
           ("Connection failed to MCP server for tool " ++ tool ++ ": " ++ m)),
         1, []⟩
    | .otherExc m => genericRetry m

/-- `MCPClient.call_tool` (lines 165-193): uninitialized clients raise
`MCPError`; otherwise `retry_attempts = retry_count or self.retry_count`
(Python `or`: an explicit `0` falls back to the client default) and the
attempt loop runs. -/
def call_tool (initialized : Bool) (client_retry_count : Nat)
    (retry_count : Option Nat) (oracle : HttpOracle) (tool : String) :
    CallResult :=
  if !initialized then
    ⟨.error (.mcpError "MCP client not initialized. Use async context manager."),
     0, []⟩
  else
    let retries :=
      match retry_count with
      | some n => if n = 0 then client_retry_count else n
      | none => client_retry_count
    call_tool_loop oracle tool retries 0 (retries + 1)

/-- The `quarterly_analysis` template of `WORKFLOW_TEMPLATES` in models.py,
as `_load_predefined_workflows` constructs it (so `max_retries` is the
pydantic default 3 and execution is sequential). -/
def quarterly_steps : List WorkflowStep :=
  [{ step_id := "fetch_sales_data", name := "Fetch Sales Data",
     tool_name := "query_database",
     parameters := [("sql", "SELECT * FROM sales WHERE quarter = ?")] },
   { step_id := "analyze_trends", name := "Analyze Trends",
     tool_name := "start_thinking",
     parameters := [("problem", "Analyze quarterly sales trends")],
     depends_on := ["fetch_sales_data"] },
   { step_id := "generate_report", name := "Generate Report",
     tool_name := "finish_thinking", depends_on := ["analyze_trends"] },
   { step_id := "email_report", name := "Email Report",
     tool_name := "send_email",
     parameters :=
       [("to", "executives@company.com"),
        ("subject", "Quarterly Analysis Report"),
        ("body", "Please find the quarterly analysis attached.")],
     depends_on := ["generate_report"] }]

/-- The registered `quarterly_analysis` workflow definition. -/
def quarterly_analysis : WorkflowDefinition :=
  { workflow_id := "quarterly_analysis", name := "Quarterly Business Analysis",
    description := "Comprehensive quarterly business performance analysis",
    steps := quarterly_steps }

/-- Invoker mock for the end-to-end failure scenario: every `send_email`
call raises (after the MCP client's internal retries), every other tool
returns data. -/
def oracle_email_fail : ToolOracle :=
  fun tool _n => if tool == "send_email" then .error "boom" else .ok "data"

/-- Two-step workflow `a ← b` (b depends on a); tool `ta` of step a always
fails, so a exhausts its retries (`max_retries = 0` keeps runs small). -/
def wf_ab_steps : List WorkflowStep :=
  [{ step_id := "a", name := "A", tool_name := "ta", max_retries := 0 },
   { step_id := "b", name := "B", tool_name := "tb", depends_on := ["a"],
     max_retries := 0 }]

/-- Sequential definition over `wf_ab_steps`. -/
def wf_ab : WorkflowDefinition :=
  { workflow_id := "ab", name := "AB", description := "ab", steps := wf_ab_steps }

/-- Parallel twin of `wf_ab`. -/
def wf_ab_par : WorkflowDefinition := { wf_ab with parallel_execution := true }

/-- Oracle under which tool `ta` always fails and everything else
succeeds. -/
def oracle_a_fail : ToolOracle :=
  fun tool _n => if tool == "ta" then .error "boom" else .ok "data"

/-- Scheduler that reports every awaited task as done (`asyncio.wait`
returning the whole set). -/
def sched_all : Nat → List String → List String := fun _ r => r

/-- Two independent steps in definition order `s1, s2` (no dependencies),
used for the tie-break analysis of the sequential picker. -/
def wf_ind_steps : List WorkflowStep :=
  [{ step_id := "s1", name := "S1", tool_name := "t1", max_retries := 0 },
   { step_id := "s2", name := "S2", tool_name := "t2", max_retries := 0 }]

/-- Sequential definition over `wf_ind_steps`. -/
def wf_ind : WorkflowDefinition :=
  { workflow_id := "ind", name := "Ind", description := "ind",
    steps := wf_ind_steps }

/-- Oracle under which every tool call succeeds. -/
def oracle_ok : ToolOracle := fun _tool _n => .ok "data"

/-- Single always-failing step, parallel mode (for the final-status
analysis: the parallel loop swallows the step error, so the epilogue
runs with zero completed steps). -/
def wf_single_fail : WorkflowDefinition :=
  { workflow_id := "sf", name := "SF", description := "sf",
    steps := [{ step_id := "a", name := "A", tool_name := "ta",
                max_retries := 0 }],
    parallel_execution := true }

/-- An execution that already reached the terminal status COMPLETED,
retained in the `active_workflows` registry. -/
def exec_done : WorkflowExecution :=
  { execution_id := "e1", workflow_id := "w", status := .completed,
    completed_steps := ["a"], progress_percentage := 100 }

/-- A tool oracle that fails on every call of every tool. -/
def oracle_fail_all : ToolOracle := fun _tool _n => .error "x"

/-- Server mock that answers HTTP 401 to every request. -/
def http_always_401 : HttpOracle := fun _n => .httpStatus 401 none

/-- `oracle` always raises for `tool`: every `_call_mcp_tool(tool, ...)`
invocation ends in an exception. -/
def always_fails (oracle : ToolOracle) (tool : String) : Prop :=
  ∀ n, ∃ m, oracle tool n = Except.error m

/-- A step with `max_retries = 2` whose tool is `t`. -/
def step_c8 : WorkflowStep :=
  { step_id := "s", name := "S", tool_name := "t", max_retries := 2 }

/-- A fresh execution record. -/
def exec_init : WorkflowExecution := { execution_id := "e", workflow_id := "w" }

/-!  Theorems.  -/

theorem execute_step_loop_fail (oracle : ToolOracle) (step : WorkflowStep)
    (hf : always_fails oracle step.tool_name) :
    ∀ fuel attempt exec st, attempt + fuel = step.max_retries + 1 →
      attempt ≤ step.max_retries →
      (execute_step_loop oracle step attempt fuel exec st).invocations = fuel ∧
      (execute_step_loop oracle step attempt fuel exec st).sleeps =
        (List.range' attempt (fuel - 1)).map (fun a => 2 ^ a) ∧
      (execute_step_loop oracle step attempt fuel exec st).exec.failed_steps =
        exec.failed_steps ++ [step.step_id] ∧
      (execute_step_loop oracle step attempt fuel exec st).stepState.status =
        .failed ∧
      (execute_step_loop oracle step attempt fuel exec st).raised.isSome := by
  intro fuel
  induction fuel with
  | zero => intro attempt exec st h1 h2; omega
  | succ f ih =>
    intro attempt exec st h1 h2
    obtain ⟨m, hm⟩ := hf attempt
    by_cases h : attempt < step.max_retries
    · have hf1 : 1 ≤ f := by omega
      obtain ⟨g, rfl⟩ := Nat.exists_eq_add_of_le hf1
      have hrec := ih (attempt + 1) exec
        { status := st.status, error := some m, retry_count := attempt }
        (by omega) (by omega)
      simp only [execute_step_loop, hm, if_pos h]
      refine ⟨by simpa using hrec.1, ?_, ?_, ?_, ?_⟩
      · have hr := hrec.2.1
        simp only [List.range'_succ, List.map_cons, Nat.add_sub_cancel] at hr ⊢
        rw [hr, Nat.add_comm 1 g, List.range'_succ, List.map_cons]
        simp
      · exact hrec.2.2.1
      · exact hrec.2.2.2.1
      · exact hrec.2.2.2.2
    · simp only [execute_step_loop, hm, if_neg h]
      have hfz : f = 0 := by omega
      subst hfz
      simp

/-- C8 (confirmed): for every step whose tool invocation always fails, the
engine invokes the underlying tool exactly `max_retries + 1` times,
sleeping `2 ^ attempt` seconds between consecutive attempts, before the
step is marked failed (it lands in `failed_steps` with step status
FAILED). -/
theorem c8_retry_budget (oracle : ToolOracle) (step : WorkflowStep)
    (exec : WorkflowExecution) (hf : always_fails oracle step.tool_name) :
    (execute_step oracle step exec).invocations = step.max_retries + 1 ∧
    (execute_step oracle step exec).sleeps =
      (List.range step.max_retries).map (fun a => 2 ^ a) ∧
    step.step_id ∈ (execute_step oracle step exec).exec.failed_steps ∧
    (execute_step oracle step exec).stepState.status = .failed := by
  have h := execute_step_loop_fail oracle step hf (step.max_retries + 1) 0
    { exec with current_step := some step.step_id }
    { status := .running, error := none, retry_count := 0 }
    (by omega) (by omega)
  unfold execute_step
  refine ⟨h.1, ?_, ?_, h.2.2.2.1⟩
  · rw [h.2.1, List.range_eq_range']
    simp
  · rw [h.2.2.1]
    simp

/-- Witness for C8 at a concrete always-failing tool: 3 invocations for
`max_retries = 2`, with backoff sleeps of 1 and 2 seconds. -/
theorem c8_retry_budget_witness :
    always_fails oracle_fail_all "t" ∧
    ((execute_step oracle_fail_all step_c8 exec_init).invocations = 3 ∧
     (execute_step oracle_fail_all step_c8 exec_init).sleeps = [1, 2] ∧
     "s" ∈ (execute_step oracle_fail_all step_c8 exec_init).exec.failed_steps ∧
     (execute_step oracle_fail_all step_c8 exec_init).stepState.status =
       .failed) := by
  constructor
  · intro n
    exact ⟨"x", rfl⟩
  · have h := c8_retry_budget oracle_fail_all step_c8 exec_init
      (fun n => ⟨"x", rfl⟩)
    simpa using h

set_option maxRecDepth 8000

/-- C1 (code bug): in sequential mode the claim fails on the code.  For the
`quarterly_analysis` template with only the email step failing, the first
three steps complete and `email_report` lands in `failed_steps` with its
error recorded, but `_execute_sequential_workflow` does not catch the
`WorkflowStepError` raised by `_execute_step` (line 333 has no `try`), so
`execute_workflow` hits its generic handler, marks the execution FAILED
(not partially completed) and raises `WorkflowError` to the caller instead
of returning the execution record. -/
theorem c1_step_failure_raises_to_caller :
    (execute_workflow oracle_email_fail
        ["fetch_sales_data", "analyze_trends", "generate_report", "email_report"]
        quarterly_analysis [] "e").exec.status = .failed ∧
    (execute_workflow oracle_email_fail
        ["fetch_sales_data", "analyze_trends", "generate_report", "email_report"]
        quarterly_analysis [] "e").exec.status ≠ .partCompleted ∧
    (execute_workflow oracle_email_fail
        ["fetch_sales_data", "analyze_trends", "generate_report", "email_report"]
        quarterly_analysis [] "e").exec.completed_steps =
      ["fetch_sales_data", "analyze_trends", "generate_report"] ∧
    (execute_workflow oracle_email_fail
        ["fetch_sales_data", "analyze_trends", "generate_report", "email_report"]
        quarterly_analysis [] "e").exec.failed_steps = ["email_report"] ∧
    (execute_workflow oracle_email_fail
        ["fetch_sales_data", "analyze_trends", "generate_report", "email_report"]
        quarterly_analysis [] "e").exec.errors = [("email_report", "boom")] ∧
    (execute_workflow oracle_email_fail
        ["fetch_sales_data", "analyze_trends", "generate_report", "email_report"]
        quarterly_analysis [] "e").raised =
      some (.workflowError
        "Workflow execution failed: Step email_report failed: boom") := by
  refine ⟨by decide, by decide, by decide, by decide, by decide, by decide⟩

theorem par_ab_stuck : ∀ f n (exec : WorkflowExecution),
    exec.completed_steps = [] →
    execute_parallel_workflow oracle_a_fail sched_all wf_ab_steps f n
      ⟨["b"], [], exec⟩ = none := by
  intro f
  induction f with
  | zero => intro n exec h; rfl
  | succ g ih =>
    intro n exec h
    have hready : ready_step wf_ab_steps exec "b" = false := by
      simp [ready_step, deps_of, wf_ab_steps, memB, h]
    simp only [execute_parallel_workflow]
    simp [hready, memB]
    exact ih (n + 1) exec h

/-- C2 (code bug): the valid acyclic two-step definition `a ← b` with `a`
always failing refutes the claim in both modes.  Sequentially,
`execute_workflow` terminates by raising, leaving `b` in neither
`completed_steps` nor `failed_steps`.  In parallel mode the
`while remaining_steps or running_tasks:` loop never terminates for any
amount of fuel: once `a` has failed, `b` is never ready, no task is
running, and the loop body repeats the same state forever. -/
theorem c2_termination_and_classification_fail :
    validate_workflow_definition wf_ab_steps = none ∧
    ("b" ∉ (execute_workflow oracle_a_fail ["a", "b"] wf_ab [] "e").exec.completed_steps ∧
     "b" ∉ (execute_workflow oracle_a_fail ["a", "b"] wf_ab [] "e").exec.failed_steps ∧
     (execute_workflow oracle_a_fail ["a", "b"] wf_ab [] "e").raised ≠ none) ∧
    (∀ fuel n,
      execute_parallel_workflow oracle_a_fail sched_all wf_ab_steps fuel n
        ⟨["a", "b"], [], { execution_id := "e", workflow_id := "ab",
                           status := .in_progress }⟩ = none) := by
  refine ⟨by decide, ⟨by decide, by decide, by decide⟩, ?_⟩
  intro fuel n
  cases fuel with
  | zero => rfl
  | succ g =>
    simp only [execute_parallel_workflow]
    simp [ready_step, deps_of, wf_ab_steps, memB, sched_all, process_done,
          find_step, execute_step, execute_step_loop, oracle_a_fail,
          update_progress]
    exact par_ab_stuck g (n + 1) _ rfl

/-- C3 (code bug): cascading failure does not happen as claimed.  With `a`
always failing and `b` depending on `a` (sequential mode), the
`WorkflowStepError` raised for `a` aborts the loop before the
failed-dependency skip branch can run, so `b` never reaches
`failed_steps`, no error is recorded for `b` (its tool is indeed never
invoked: execution trace is `["a"]`), and the exception propagates.  (In
parallel mode the same definition makes the loop spin forever, as
established for the non-termination analysis.) -/
theorem c3_cascading_failure_not_recorded :
    (execute_workflow oracle_a_fail ["a", "b"] wf_ab [] "e").exec.failed_steps =
      ["a"] ∧
    "b" ∉ (execute_workflow oracle_a_fail ["a", "b"] wf_ab [] "e").exec.failed_steps ∧
    (execute_workflow oracle_a_fail ["a", "b"] wf_ab [] "e").trace = ["a"] ∧
    ((execute_workflow oracle_a_fail ["a", "b"] wf_ab [] "e").exec.errors).lookup "b" =
      none ∧
    (execute_workflow oracle_a_fail ["a", "b"] wf_ab [] "e").raised ≠ none := by
  refine ⟨by decide, by decide, by decide, by decide, by decide⟩

theorem execute_step_loop_status (oracle : ToolOracle) (step : WorkflowStep) :
    ∀ fuel attempt exec st s,
    execute_step_loop oracle step attempt fuel { exec with status := s } st =
      { exec := { (execute_step_loop oracle step attempt fuel exec st).exec with
                    status := s },
        stepState := (execute_step_loop oracle step attempt fuel exec st).stepState,
        raised := (execute_step_loop oracle step attempt fuel exec st).raised,
        invocations := (execute_step_loop oracle step attempt fuel exec st).invocations,
        sleeps := (execute_step_loop oracle step attempt fuel exec st).sleeps } := by
  intro fuel
  induction fuel with
  | zero => intro attempt exec st s; rfl
  | succ f ih =>
    intro attempt exec st s
    rcases h : oracle step.tool_name attempt with m | d
    · by_cases hlt : attempt < step.max_retries
      · have e1 : execute_step_loop oracle step attempt (f + 1)
            { exec with status := s } st =
            ⟨(execute_step_loop oracle step (attempt + 1) f { exec with status := s }
                { st with error := some m, retry_count := attempt }).exec,
             (execute_step_loop oracle step (attempt + 1) f { exec with status := s }
                { st with error := some m, retry_count := attempt }).stepState,
             (execute_step_loop oracle step (attempt + 1) f { exec with status := s }
                { st with error := some m, retry_count := attempt }).raised,
             (execute_step_loop oracle step (attempt + 1) f { exec with status := s }
                { st with error := some m, retry_count := attempt }).invocations + 1,
             2 ^ attempt ::
               (execute_step_loop oracle step (attempt + 1) f { exec with status := s }
                  { st with error := some m, retry_count := attempt }).sleeps⟩ := by
          simp only [execute_step_loop, h, if_pos hlt]
        have e2 : execute_step_loop oracle step attempt (f + 1) exec st =
            ⟨(execute_step_loop oracle step (attempt + 1) f exec
                { st with error := some m, retry_count := attempt }).exec,
             (execute_step_loop oracle step (attempt + 1) f exec
                { st with error := some m, retry_count := attempt }).stepState,
             (execute_step_loop oracle step (attempt + 1) f exec
                { st with error := some m, retry_count := attempt }).raised,
             (execute_step_loop oracle step (attempt + 1) f exec
                { st with error := some m, retry_count := attempt }).invocations + 1,
             2 ^ attempt ::
               (execute_step_loop oracle step (attempt + 1) f exec
                  { st with error := some m, retry_count := attempt }).sleeps⟩ := by
          simp only [execute_step_loop, h, if_pos hlt]
        have hr := ih (attempt + 1) exec
          { st with error := some m, retry_count := attempt } s
        rw [e1, hr, e2]
      · have e1 : execute_step_loop oracle step attempt (f + 1)
            { exec with status := s } st =
            ⟨{ { exec with status := s } with
                 failed_steps := exec.failed_steps ++ [step.step_id],
                 errors := exec.errors ++ [(step.step_id, m)] },
             { status := .failed, error := some m, retry_count := attempt },
             some (.workflowStepError
               ("Step " ++ step.step_id ++ " failed: " ++ m)), 1, []⟩ := by
          simp only [execute_step_loop, h, if_neg hlt]
        have e2 : execute_step_loop oracle step attempt (f + 1) exec st =
            ⟨{ exec with
                 failed_steps := exec.failed_steps ++ [step.step_id],
                 errors := exec.errors ++ [(step.step_id, m)] },
             { status := .failed, error := some m, retry_count := attempt },
             some (.workflowStepError
               ("Step " ++ step.step_id ++ " failed: " ++ m)), 1, []⟩ := by
          simp only [execute_step_loop, h, if_neg hlt]
        rw [e1, e2]
    · have e1 : execute_step_loop oracle step attempt (f + 1)
          { exec with status := s } st =
          ⟨{ { exec with status := s } with
               completed_steps := exec.completed_steps ++ [step.step_id],
               results := exec.results ++ [(step.step_id, d)] },
           { st with status := .completed }, none, 1, []⟩ := by
        simp only [execute_step_loop, h]
      have e2 : execute_step_loop oracle step attempt (f + 1) exec st =
          ⟨{ exec with
               completed_steps := exec.completed_steps ++ [step.step_id],
               results := exec.results ++ [(step.step_id, d)] },
           { st with status := .completed }, none, 1, []⟩ := by
        simp only [execute_step_loop, h]
      rw [e1, e2]

theorem ready_step_status (steps : List WorkflowStep) (exec : WorkflowExecution)
    (s : WorkflowStatus) :
    ready_step steps { exec with status := s } = ready_step steps exec := rfl

theorem blocked_step_status (steps : List WorkflowStep) (exec : WorkflowExecution)
    (s : WorkflowStatus) :
    blocked_step steps { exec with status := s } = blocked_step steps exec := rfl

theorem execute_step_status (oracle : ToolOracle) (step : WorkflowStep)
    (exec : WorkflowExecution) (s : WorkflowStatus) :
    execute_step oracle step { exec with status := s } =
      { exec := { (execute_step oracle step exec).exec with status := s },
        stepState := (execute_step oracle step exec).stepState,
        raised := (execute_step oracle step exec).raised,
        invocations := (execute_step oracle step exec).invocations,
        sleeps := (execute_step oracle step exec).sleeps } := by
  have h := execute_step_loop_status oracle step (step.max_retries + 1) 0
    { exec with current_step := some step.step_id }
    { status := .running, error := none, retry_count := 0 } s
  unfold execute_step
  exact h

theorem update_progress_status (steps : List WorkflowStep)
    (exec : WorkflowExecution) (s : WorkflowStatus) :
    update_progress steps { exec with status := s } =
      { update_progress steps exec with status := s } := rfl

theorem execute_sequential_workflow_status (oracle : ToolOracle)
    (steps : List WorkflowStep) :
    ∀ fuel rem exec s,
    execute_sequential_workflow oracle steps fuel rem { exec with status := s } =
      { exec := { (execute_sequential_workflow oracle steps fuel rem exec).exec with
                    status := s },
        raised := (execute_sequential_workflow oracle steps fuel rem exec).raised,
        trace := (execute_sequential_workflow oracle steps fuel rem exec).trace } := by
  intro fuel
  induction fuel with
  | zero =>
    intro rem exec s
    cases rem with
    | nil => rfl
    | cons r0 rs => rfl
  | succ f ih =>
    intro rem exec s
    cases rem with
    | nil => rfl
    | cons r0 rs =>
      rcases hready : (r0 :: rs).filter (ready_step steps exec) with _ | ⟨sid, rest⟩
      · rcases hblk : (r0 :: rs).filter (blocked_step steps exec) with _ | ⟨f0, fs⟩
        · simp only [execute_sequential_workflow, ready_step_status,
            blocked_step_status, hready, hblk]
        · simp only [execute_sequential_workflow, ready_step_status,
            blocked_step_status, hready, hblk]
          have hr := ih ((r0 :: rs).filter (fun sid => !memB sid (f0 :: fs)))
            { exec with failed_steps := exec.failed_steps ++ f0 :: fs } s
          simp only [hr]
      · simp only [execute_sequential_workflow, ready_step_status,
          blocked_step_status, hready, execute_step_status]
        rcases hr2 : (execute_step oracle (find_step steps sid) exec).raised
          with _ | e
        · have hr := ih ((r0 :: rs).erase sid)
            (update_progress steps (execute_step oracle
              (find_step steps sid) exec).exec) s
          simp only [update_progress_status, hr]
        · rfl

theorem cancel_lookup_cancelled (eid : String) :
    ∀ active : List (String × WorkflowExecution),
    (active.lookup eid).isSome →
    (((active.map (fun p =>
        if p.1 == eid then (p.1, { p.2 with status := WorkflowStatus.cancelled })
        else p)).lookup eid).map WorkflowExecution.status) = some .cancelled := by
  intro active
  induction active with
  | nil => intro h; simp [List.lookup] at h
  | cons p rest ih =>
    obtain ⟨k, v⟩ := p
    intro h
    rcases hb : eid == k with _ | _
    · have hb' : (k == eid) = false :=
        beq_eq_false_iff_ne.mpr (Ne.symm (beq_eq_false_iff_ne.mp hb))
      have h2 : (List.lookup eid rest).isSome := by
        simpa [List.lookup, hb] using h
      have hmap : (((k, v) :: rest).map (fun p =>
          if p.1 == eid then
            (p.1, { p.2 with status := WorkflowStatus.cancelled })
          else p)) = (k, v) :: rest.map (fun p =>
          if p.1 == eid then
            (p.1, { p.2 with status := WorkflowStatus.cancelled })
          else p) := by
        simp [hb']
        intro h3
        exact absurd h3 (beq_eq_false_iff_ne.mp hb')
      rw [hmap]
      simpa [List.lookup, hb] using ih h2
    · have hb' : (k == eid) = true := by
        have h1 : eid = k := beq_iff_eq.mp hb
        simp [h1]
      have hmap : (((k, v) :: rest).map (fun p =>
          if p.1 == eid then
            (p.1, { p.2 with status := WorkflowStatus.cancelled })
          else p)) = (k, { v with status := WorkflowStatus.cancelled }) ::
            rest.map (fun p =>
          if p.1 == eid then
            (p.1, { p.2 with status := WorkflowStatus.cancelled })
          else p) := by
        simp [hb']
        intro h3
        exact absurd (beq_iff_eq.mp hb') h3
      rw [hmap]
      simp [List.lookup, hb]

/-- C4 counterexample: `cancel_workflow` called on an execution whose status
is the terminal value COMPLETED overwrites it with CANCELLED and returns
True, so a terminal status does change again. -/
theorem c4_terminal_status_overwritten :
    exec_done.status = .completed ∧
    (cancel_workflow [("e1", exec_done)] "e1").2 = true ∧
    ((cancel_workflow [("e1", exec_done)] "e1").1.lookup "e1").map
      WorkflowExecution.status = some .cancelled ∧
    ((cancel_workflow [("e1", exec_done)] "e1").1.lookup "e1").map
      WorkflowExecution.status ≠ some exec_done.status := by
  refine ⟨by decide, by decide, by decide, by decide⟩

/-- C4 (corrected, amended): `cancel_workflow` unconditionally sets the
status of any tracked execution to CANCELLED and returns True — including
executions already in a terminal state — and returns False leaving the
registry unchanged otherwise; the sequential driving loop neither reads
nor preserves-by-checking the status: the steps it starts (its trace) are
identical whatever the status field holds (so marking an execution
cancelled does not prevent further steps from starting), and the loop
itself never writes the status field. -/
theorem c4_cancel_semantics :
    (∀ (active : List (String × WorkflowExecution)) (eid : String),
       (active.lookup eid).isSome →
       (cancel_workflow active eid).2 = true ∧
       ((cancel_workflow active eid).1.lookup eid).map WorkflowExecution.status =
         some .cancelled) ∧
    (∀ (active : List (String × WorkflowExecution)) (eid : String),
       (active.lookup eid).isSome = false →
       cancel_workflow active eid = (active, false)) ∧
    (∀ (oracle : ToolOracle) (steps : List WorkflowStep) (fuel : Nat)
       (rem : List String) (exec : WorkflowExecution) (s : WorkflowStatus),
       (execute_sequential_workflow oracle steps fuel rem
          { exec with status := s }).trace =
         (execute_sequential_workflow oracle steps fuel rem exec).trace ∧
       (execute_sequential_workflow oracle steps fuel rem
          { exec with status := s }).exec.status = s) := by
  refine ⟨?_, ?_, ?_⟩
  · intro active eid h
    constructor
    · simp [cancel_workflow, h]
    · simp only [cancel_workflow, h, if_pos]
      exact cancel_lookup_cancelled eid active h
  · intro active eid h
    simp [cancel_workflow, h]
  · intro oracle steps fuel rem exec s
    rw [execute_sequential_workflow_status oracle steps fuel rem exec s]
    exact ⟨rfl, rfl⟩

/-- Witness for C4: a tracked id gets cancelled with True returned, and a
two-step workflow already marked cancelled still starts both steps. -/
theorem c4_cancel_semantics_witness :
    (([("e1", exec_done)] : List (String × WorkflowExecution)).lookup
       "e1").isSome = true ∧
    ((cancel_workflow [("e1", exec_done)] "e1").2 = true ∧
     ((cancel_workflow [("e1", exec_done)] "e1").1.lookup "e1").map
       WorkflowExecution.status = some .cancelled) ∧
    (execute_sequential_workflow oracle_ok wf_ind_steps 2 ["s1", "s2"]
       { exec_init with status := .cancelled }).trace =
      (execute_sequential_workflow oracle_ok wf_ind_steps 2 ["s1", "s2"]
         exec_init).trace := by
  refine ⟨by decide, ?_, ?_⟩
  · exact c4_cancel_semantics.1 [("e1", exec_done)] "e1" (by decide)
  · exact (c4_cancel_semantics.2.2 oracle_ok wf_ind_steps 2 ["s1", "s2"]
      exec_init .cancelled).1


theorem execute_workflow_final_status (oracle : ToolOracle) (order : List String)
    (wd : WorkflowDefinition) (params : List (String × String)) (eid : String)
    (r : WorkflowRunResult) (h : execute_workflow oracle order wd params eid = r)
    (hnone : r.raised = none) :
    r.exec.status =
      (if (apply_runtime_parameters wd.steps params).all (fun s =>
           memB s.step_id r.exec.completed_steps)
       then WorkflowStatus.completed
       else if !r.exec.failed_steps.isEmpty then WorkflowStatus.partCompleted
       else WorkflowStatus.failed) := by
  simp only [execute_workflow] at h
  revert h
  generalize execute_sequential_workflow oracle
      (apply_runtime_parameters wd.steps params) order.length order
      { execution_id := eid, workflow_id := wd.workflow_id,
        status := .in_progress } = q
  obtain ⟨qex, qraised, qtrace⟩ := q
  intro h
  cases qraised with
  | none =>
    rw [← h]
    simp [final_status]
  | some e =>
    rw [← h] at hnone
    simp at hnone

theorem execute_workflow_par_final_status (oracle : ToolOracle)
    (sched : Nat → List String → List String) (fuel : Nat)
    (order : List String) (wd : WorkflowDefinition)
    (params : List (String × String)) (eid : String)
    (o : Option WorkflowRunResult)
    (h : execute_workflow_par oracle sched fuel order wd params eid = o) :
    o.map (fun r => r.raised) = o.map (fun _ => none) ∧
    o.map (fun r => r.exec.status) =
      o.map (fun r =>
        if (apply_runtime_parameters wd.steps params).all (fun s =>
             memB s.step_id r.exec.completed_steps)
        then WorkflowStatus.completed
        else if !r.exec.failed_steps.isEmpty then WorkflowStatus.partCompleted
        else WorkflowStatus.failed) := by
  simp only [execute_workflow_par] at h
  revert h
  generalize execute_parallel_workflow oracle sched
      (apply_runtime_parameters wd.steps params) fuel 0
      ⟨order, [], { execution_id := eid, workflow_id := wd.workflow_id,
                    status := .in_progress }⟩ = q
  intro h
  cases q with
  | none => rw [← h]; exact ⟨rfl, rfl⟩
  | some st =>
    rw [← h]
    constructor
    · rfl
    · simp [final_status]

theorem execute_workflow_raised_shape (oracle : ToolOracle) (order : List String)
    (wd : WorkflowDefinition) (params : List (String × String)) (eid : String)
    (r : WorkflowRunResult)
    (h : execute_workflow oracle order wd params eid = r) :
    r.raised = none ∨ ∃ m, r.raised = some (.workflowError m) := by
  simp only [execute_workflow] at h
  revert h
  generalize execute_sequential_workflow oracle
      (apply_runtime_parameters wd.steps params) order.length order
      { execution_id := eid, workflow_id := wd.workflow_id,
        status := .in_progress } = q
  obtain ⟨qex, qraised, qtrace⟩ := q
  intro h
  cases qraised with
  | none =>
    left
    rw [← h]
  | some e =>
    right
    rw [← h]
    exact ⟨_, rfl⟩

/-- C5 counterexample: a parallel single-step workflow whose only step
always fails returns normally with zero completed steps and one failed
step, and its final status is PARTIALLY_COMPLETED — the claim demands
FAILED for zero completed with at least one failed. -/
theorem c5_zero_completed_is_partial :
    (execute_workflow_par oracle_a_fail sched_all 3 ["a"] wf_single_fail []
        "e").map (fun r => r.exec.status) = some .partCompleted ∧
    (execute_workflow_par oracle_a_fail sched_all 3 ["a"] wf_single_fail []
        "e").map (fun r => r.exec.completed_steps) = some [] ∧
    (execute_workflow_par oracle_a_fail sched_all 3 ["a"] wf_single_fail []
        "e").map (fun r => r.exec.failed_steps) = some ["a"] ∧
    (execute_workflow_par oracle_a_fail sched_all 3 ["a"] wf_single_fail []
        "e").map (fun r => r.raised) = some none ∧
    WorkflowStatus.partCompleted ≠ WorkflowStatus.failed := by
  refine ⟨by decide, by decide, by decide, by decide, by decide⟩

/-- C5 (corrected, amended): whenever `execute_workflow` returns without
raising, the final status follows the source precedence of lines 240-245:
all step ids in `completed_steps` → completed; otherwise `failed_steps`
non-empty → partially completed (even with zero completed steps);
otherwise failed.  Stated for the sequential wrapper and, option-mapped,
for the parallel wrapper (whose normal returns never carry an
exception). -/
theorem c5_final_status_precedence :
    (∀ (oracle : ToolOracle) (order : List String) (wd : WorkflowDefinition)
       (params : List (String × String)) (eid : String),
       (execute_workflow oracle order wd params eid).raised = none →
       (execute_workflow oracle order wd params eid).exec.status =
         (if (apply_runtime_parameters wd.steps params).all (fun s =>
              memB s.step_id
                (execute_workflow oracle order wd params eid).exec.completed_steps)
          then WorkflowStatus.completed
          else if !(execute_workflow oracle order wd params eid).exec.failed_steps.isEmpty
          then WorkflowStatus.partCompleted
          else WorkflowStatus.failed)) ∧
    (∀ (oracle : ToolOracle) (sched : Nat → List String → List String)
       (fuel : Nat) (order : List String) (wd : WorkflowDefinition)
       (params : List (String × String)) (eid : String),
       (execute_workflow_par oracle sched fuel order wd params eid).map
           (fun r => r.raised) =
         (execute_workflow_par oracle sched fuel order wd params eid).map
           (fun _ => none) ∧
       (execute_workflow_par oracle sched fuel order wd params eid).map
           (fun r => r.exec.status) =
         (execute_workflow_par oracle sched fuel order wd params eid).map
           (fun r =>
             if (apply_runtime_parameters wd.steps params).all (fun s =>
                  memB s.step_id r.exec.completed_steps)
             then WorkflowStatus.completed
             else if !r.exec.failed_steps.isEmpty
             then WorkflowStatus.partCompleted
             else WorkflowStatus.failed)) := by
  constructor
  · intro oracle order wd params eid hnone
    exact execute_workflow_final_status oracle order wd params eid _ rfl hnone
  · intro oracle sched fuel order wd params eid
    exact execute_workflow_par_final_status oracle sched fuel order wd params
      eid _ rfl

/-- Witness for C5: an all-succeeding two-step sequential run returns
without raising and its status is COMPLETED, as the precedence demands. -/
theorem c5_final_status_precedence_witness :
    (execute_workflow oracle_ok ["s1", "s2"] wf_ind [] "e").raised = none ∧
    (execute_workflow oracle_ok ["s1", "s2"] wf_ind [] "e").exec.status =
      .completed := by
  constructor
  · decide
  · have h := c5_final_status_precedence.1 oracle_ok ["s1", "s2"] wf_ind []
      "e" (by decide)
    rw [h]
    decide

/-- C6 (code bug): no workflow-level timeout exists in the code.  The
execution result is independent of the definition's `timeout_minutes` in
both modes (nothing ever reads the field or arms a timer — there is no
`asyncio.wait_for` anywhere in workflow_manager.py), and the sequential
wrapper can never raise `WorkflowTimeoutError`: its
`except asyncio.TimeoutError` branch (lines 252-256) is unreachable
because nothing in the model call path raises `asyncio.TimeoutError`. -/
theorem c6_timeout_never_enforced :
    (∀ (oracle : ToolOracle) (order : List String) (wd : WorkflowDefinition)
       (params : List (String × String)) (eid : String) (t : Nat),
       execute_workflow oracle order { wd with timeout_minutes := t } params eid =
         execute_workflow oracle order wd params eid) ∧
    (∀ (oracle : ToolOracle) (sched : Nat → List String → List String)
       (fuel : Nat) (order : List String) (wd : WorkflowDefinition)
       (params : List (String × String)) (eid : String) (t : Nat),
       execute_workflow_par oracle sched fuel order
           { wd with timeout_minutes := t } params eid =
         execute_workflow_par oracle sched fuel order wd params eid) ∧
    (∀ (oracle : ToolOracle) (order : List String) (wd : WorkflowDefinition)
       (params : List (String × String)) (eid m : String),
       (execute_workflow oracle order wd params eid).raised ≠
         some (.workflowTimeoutError m)) := by
  refine ⟨?_, ?_, ?_⟩
  · intro oracle order wd params eid t
    cases wd
    rfl
  · intro oracle sched fuel order wd params eid t
    cases wd
    rfl
  · intro oracle order wd params eid m
    rcases execute_workflow_raised_shape oracle order wd params eid _ rfl with
      h | ⟨m2, h⟩
    · rw [h]
      simp
    · rw [h]
      simp

/-- C9 counterexample: with definition order `[s1, s2]` (two independent,
simultaneously ready steps) and set-iteration order `["s2", "s1"]` — a
legitimate iteration order of the Python set `{"s1", "s2"}`, whose order
is hash-dependent and unspecified — the engine executes `s2` first even
though `s1` occurs earlier in the definition, so the executed order is not
the definition-order tie-break and differs from the order obtained under
iteration order `["s1", "s2"]`. -/
theorem c9_definition_order_not_respected :
    wf_ind.steps.map (fun s => s.step_id) = ["s1", "s2"] ∧
    (["s2", "s1"] : List String).Perm (wf_ind.steps.map (fun s => s.step_id)) ∧
    ready_step (apply_runtime_parameters wf_ind.steps [])
      { execution_id := "e", workflow_id := "ind", status := .in_progress }
      "s1" = true ∧
    ready_step (apply_runtime_parameters wf_ind.steps [])
      { execution_id := "e", workflow_id := "ind", status := .in_progress }
      "s2" = true ∧
    (execute_workflow oracle_ok ["s2", "s1"] wf_ind [] "e").trace =
      ["s2", "s1"] ∧
    (execute_workflow oracle_ok ["s1", "s2"] wf_ind [] "e").trace =
      ["s1", "s2"] ∧
    (execute_workflow oracle_ok ["s2", "s1"] wf_ind [] "e").trace ≠
      wf_ind.steps.map (fun s => s.step_id) := by
  refine ⟨by decide, by decide, by decide, by decide, by decide, by decide,
    by decide⟩

/-- C9 (corrected, amended): when at least one remaining step is ready, the
sequential engine starts the first ready step in the iteration order of
its internal `remaining_steps` set (the order parameter of the embedding),
which need not be the definition's step order; execution order is
deterministic only relative to that set-iteration order. -/
theorem c9_picks_first_ready_in_set_order (oracle : ToolOracle)
    (steps : List WorkflowStep) (fuel : Nat) (rem : List String)
    (exec : WorkflowExecution) (sid : String) (rest : List String)
    (h : rem.filter (ready_step steps exec) = sid :: rest) :
    (execute_sequential_workflow oracle steps (fuel + 1) rem exec).trace.head? =
      some sid := by
  cases rem with
  | nil => simp at h
  | cons r0 rs =>
    simp only [execute_sequential_workflow, h]
    rcases hr : (execute_step oracle (find_step steps sid) exec).raised with _ | e
    · simp [hr]
    · simp [hr]

/-- Witness for C9: with both steps ready and set order `["s2", "s1"]`, the
engine starts `s2`. -/
theorem c9_picks_first_ready_in_set_order_witness :
    (["s2", "s1"] : List String).filter
      (ready_step wf_ind_steps exec_init) = ["s2", "s1"] ∧
    (execute_sequential_workflow oracle_ok wf_ind_steps 2 ["s2", "s1"]
      exec_init).trace.head? = some "s2" := by
  constructor
  · decide
  · exact c9_picks_first_ready_in_set_order oracle_ok wf_ind_steps 1
      ["s2", "s1"] exec_init "s2" ["s1"] (by decide)

/-- C10 (code bug): for an initialized client with `retry_count = 2`, a
server that answers HTTP 401 on every attempt does not make `call_tool`
raise `MCPAuthError` immediately: the `raise MCPAuthError` sits inside the
`try` body and is caught by the trailing `except Exception` handler, which
sleeps (1s, then 2s) and retries, performing 3 HTTP requests in total and
finally raising `MCPToolError("Unexpected error calling ...")` — never an
auth error. -/
theorem c10_auth_error_is_retried_and_rewrapped :
    (call_tool true 2 none http_always_401 "t").invocations = 3 ∧
    (call_tool true 2 none http_always_401 "t").sleeps = [1, 2] ∧
    (call_tool true 2 none http_always_401 "t").result =
      .error (.mcpToolError
        ("Unexpected error calling t: " ++
         "Authentication failed: Invalid GitHub OAuth token for tool t")) ∧
    (∀ m, (call_tool true 2 none http_always_401 "t").result ≠
      .error (.mcpAuthError m)) := by
  refine ⟨by decide, by decide, by decide, ?_⟩
  intro m hcontra
  rw [show (call_tool true 2 none http_always_401 "t").result =
      .error (.mcpToolError
        ("Unexpected error calling t: " ++
         "Authentication failed: Invalid GitHub OAuth token for tool t"))
    from by decide] at hcontra
  simp at hcontra

theorem fresh_count_mono (steps : List WorkflowStep) {v1 v2 : List String}
    (h : v1 ⊆ v2) : fresh_count steps v2 ≤ fresh_count steps v1 := by
  apply Finset.card_le_card
  apply Finset.sdiff_subset_sdiff (le_refl _)
  intro a ha
  simp only [List.mem_toFinset] at ha ⊢
  exact h ha

theorem fresh_count_cons (steps : List WorkflowStep) {x : String}
    {v : List String} (hx : x ∈ step_ids steps) (hxv : x ∉ v) :
    fresh_count steps (x :: v) < fresh_count steps v := by
  unfold fresh_count
  rw [List.toFinset_cons, Finset.sdiff_insert]
  apply Finset.card_erase_lt_of_mem
  simp [hx, hxv]

theorem fresh_count_le (steps : List WorkflowStep) (v : List String) :
    fresh_count steps v ≤ steps.length := by
  calc fresh_count steps v ≤ (step_ids steps).toFinset.card :=
        Finset.card_le_card (Finset.sdiff_subset)
    _ ≤ (step_ids steps).length := (step_ids steps).toFinset_card_le
    _ = steps.length := List.length_map _ _

theorem dfs_fold_mono (f : String → List String → Bool × List String)
    (hf : ∀ d v, v ⊆ (f d v).2) :
    ∀ ds v, v ⊆ (dfs_fold f ds v).2 := by
  intro ds
  induction ds with
  | nil => intro v; exact fun a ha => ha
  | cons d ds ih =>
    intro v
    simp only [dfs_fold]
    rcases hb : (f d v).1 with _ | _
    · simp only [hb, Bool.false_eq_true, if_false]
      exact fun a ha => ih (f d v).2 (hf d v ha)
    · simp only [hb, if_true]
      exact hf d v
  
theorem hcd_visited_mono (steps : List WorkflowStep) :
    ∀ fuel x v p, v ⊆ (has_circular_dependency steps fuel x v p).2 := by
  intro fuel
  induction fuel with
  | zero => intro x v p; exact fun a ha => ha
  | succ f ih =>
    intro x v p
    simp only [has_circular_dependency]
    by_cases hp : memB x p
    · simp [hp]
    · simp only [hp, Bool.false_eq_true, if_false]
      by_cases hv : memB x v
      · simp [hv]
      · simp only [hv, Bool.false_eq_true, if_false]
        have hm := dfs_fold_mono
          (fun d vis => has_circular_dependency steps f d vis (x :: p))
          (fun d vis => ih d vis (x :: p)) (deps_of steps x) (x :: v)
        exact fun a ha => hm (List.mem_cons_of_mem x ha)

theorem deps_of_subset_ids (steps : List WorkflowStep)
    (closed : deps_closed steps) (x : String) :
    ∀ d ∈ deps_of steps x, d ∈ step_ids steps := by
  intro d hd
  unfold deps_of at hd
  rcases hf : steps.find? (fun s => s.step_id == x) with _ | s
  · rw [hf] at hd; simp at hd
  · rw [hf] at hd
    simp only [Option.map_some', Option.getD_some] at hd
    exact closed s (List.mem_of_find?_eq_some hf) d hd

theorem chain_reach (steps : List WorkflowStep) :
    ∀ (l : List String) (a : String),
    List.Chain' (fun u w => step_edge steps w u) (a :: l) →
    ∀ b ∈ a :: l, Relation.ReflTransGen (step_edge steps) b a := by
  intro l
  induction l with
  | nil =>
    intro a _ b hb
    simp at hb
    subst hb
    exact Relation.ReflTransGen.refl
  | cons h t ih =>
    intro a hch b hb
    rw [List.chain'_cons] at hch
    rcases List.mem_cons.mp hb with rfl | hb'
    · exact Relation.ReflTransGen.refl
    · exact (ih h hch.2 b hb').tail hch.1

theorem path_hit_cycle (steps : List WorkflowStep) (x : String)
    (p : List String)
    (hchain : List.Chain' (fun u w => step_edge steps w u) (x :: p))
    (hmem : x ∈ p) : Relation.TransGen (step_edge steps) x x := by
  cases p with
  | nil => simp at hmem
  | cons h t =>
    rw [List.chain'_cons] at hchain
    exact Relation.TransGen.tail' (chain_reach steps t h hchain.2 x hmem)
      hchain.1

theorem hcd_sound (steps : List WorkflowStep) (closed : deps_closed steps) :
    ∀ fuel x v p,
    fresh_count steps v < fuel →
    x ∈ step_ids steps →
    List.Chain' (fun u w => step_edge steps w u) (x :: p) →
    (has_circular_dependency steps fuel x v p).1 = true →
    has_cycle steps := by
  intro fuel
  induction fuel with
  | zero => intro x v p hfr; omega
  | succ f ih =>
    intro x v p hfr hx hchain htrue
    by_cases hp : memB x p
    · have hxp : x ∈ p := by simpa [memB] using hp
      exact ⟨x, path_hit_cycle steps x p hchain hxp⟩
    · by_cases hv : memB x v
      · simp [has_circular_dependency, hp, hv] at htrue
      · simp only [has_circular_dependency, hp, hv, Bool.false_eq_true,
          if_false] at htrue
        have hxv : x ∉ v := by simpa [memB] using hv
        have hfr' : fresh_count steps (x :: v) < f := by
          have := fresh_count_cons steps hx hxv
          omega
        -- inner induction over the dependency list
        have hfold : ∀ (ds : List String) (v0 : List String),
            (∀ d ∈ ds, step_edge steps x d) →
            (∀ d ∈ ds, d ∈ step_ids steps) →
            fresh_count steps v0 < f →
            (dfs_fold (fun d vis =>
                has_circular_dependency steps f d vis (x :: p)) ds v0).1 =
              true →
            has_cycle steps := by
          intro ds
          induction ds with
          | nil => intro v0 _ _ _ hcontra; simp [dfs_fold] at hcontra
          | cons d ds ihds =>
            intro v0 hedge hids hfr0 htr
            simp only [dfs_fold] at htr
            rcases hb : (has_circular_dependency steps f d v0 (x :: p)).1
              with _ | _
            · rw [hb] at htr
              simp only [Bool.false_eq_true, if_false] at htr
              refine ihds _ (fun e he => hedge e (List.mem_cons_of_mem d he))
                (fun e he => hids e (List.mem_cons_of_mem d he)) ?_ htr
              calc fresh_count steps
                    (has_circular_dependency steps f d v0 (x :: p)).2
                  ≤ fresh_count steps v0 :=
                    fresh_count_mono steps (hcd_visited_mono steps f d v0 (x :: p))
                _ < f := hfr0
            · refine ih d v0 (x :: p) hfr0 (hids d (List.mem_cons_self d ds)) ?_ hb
              rw [List.chain'_cons]
              exact ⟨hedge d (List.mem_cons_self d ds), hchain⟩
        exact hfold (deps_of steps x) (x :: v)
          (fun d hd => hd)
          (deps_of_subset_ids steps closed x)
          hfr' htrue

theorem hcd_complete (steps : List WorkflowStep) :
    ∀ fuel x v p v',
    has_circular_dependency steps fuel x v p = (false, v') →
    visited_cycle_free steps v p →
    v ⊆ v' ∧ x ∈ v' ∧ x ∉ p ∧ visited_cycle_free steps v' p := by
  intro fuel
  induction fuel with
  | zero =>
    intro x v p v' hres
    simp [has_circular_dependency] at hres
  | succ f ih =>
    intro x v p v' hres hinv
    by_cases hp : memB x p
    · simp [has_circular_dependency, hp] at hres
    · have hxp : x ∉ p := by simpa [memB] using hp
      by_cases hv : memB x v
      · have hxv : x ∈ v := by simpa [memB] using hv
        simp only [has_circular_dependency, hp, hv, Bool.false_eq_true,
          if_false, if_true] at hres
        obtain ⟨h1, h2⟩ := Prod.mk.injEq _ _ _ _ ▸ hres
        subst h2
        exact ⟨fun a ha => ha, hxv, hxp, hinv⟩
      · have hxv : x ∉ v := by simpa [memB] using hv
        simp only [has_circular_dependency, hp, hv, Bool.false_eq_true,
          if_false] at hres
        -- inner fold: every dependency is explored with a false result
        have hfold : ∀ (ds : List String) (v0 : List String),
            visited_cycle_free steps v0 (x :: p) →
            dfs_fold (fun d vis =>
              has_circular_dependency steps f d vis (x :: p)) ds v0 =
              (false, v') →
            v0 ⊆ v' ∧ (∀ d ∈ ds, d ∈ v' ∧ d ∉ (x :: p)) ∧
              visited_cycle_free steps v' (x :: p) := by
          intro ds
          induction ds with
          | nil =>
            intro v0 hinv0 hr
            simp only [dfs_fold, Prod.mk.injEq] at hr
            obtain ⟨-, h2⟩ := hr
            subst h2
            exact ⟨fun a ha => ha, by simp, hinv0⟩
          | cons d ds ihds =>
            intro v0 hinv0 hr
            simp only [dfs_fold] at hr
            rcases hb : (has_circular_dependency steps f d v0 (x :: p)).1
              with _ | _
            · rw [hb] at hr
              simp only [Bool.false_eq_true, if_false] at hr
              have hd := ih d v0 (x :: p)
                (has_circular_dependency steps f d v0 (x :: p)).2
                (by rw [← hb]) hinv0
              obtain ⟨hsub0, hdmem, hdp, hinv1⟩ := hd
              obtain ⟨hsub1, hds, hinv2⟩ := ihds _ hinv1 hr
              refine ⟨fun a ha => hsub1 (hsub0 ha), ?_, hinv2⟩
              intro e he
              rcases List.mem_cons.mp he with rfl | he'
              · exact ⟨hsub1 hdmem, hdp⟩
              · exact hds e he'
            · rw [hb] at hr
              simp at hr
        have hinv0 : visited_cycle_free steps (x :: v) (x :: p) := by
          intro a ha hap
          rcases List.mem_cons.mp ha with rfl | hav
          · exact absurd (List.mem_cons_self a p) hap
          · exact hinv a hav (fun hc => hap (List.mem_cons_of_mem x hc))
        obtain ⟨hsub, hdeps, hinvafter⟩ :=
          hfold (deps_of steps x) (x :: v) hinv0 hres
        have hxv' : x ∈ v' := hsub (List.mem_cons_self x v)
        have hxfree : cycle_free steps x := by
          rintro ⟨z, hreach, hcyc⟩
          rcases hreach.cases_head with rfl | ⟨d, hxd, hdz⟩
          · rcases Relation.TransGen.head'_iff.mp hcyc with ⟨d, hxd, hdx⟩
            have hd := hdeps d hxd
            exact hinvafter d hd.1 hd.2 ⟨x, hdx, hcyc⟩
          · have hd := hdeps d hxd
            exact hinvafter d hd.1 hd.2 ⟨z, hdz, hcyc⟩
        refine ⟨fun a ha => hsub (List.mem_cons_of_mem x ha), hxv', hxp, ?_⟩
        intro a ha hap
        by_cases hax : a = x
        · subst hax
          exact hxfree
        · exact hinvafter a ha (by
            intro hc
            rcases List.mem_cons.mp hc with h1 | h2
            · exact hax h1
            · exact hap h2)

theorem check_circular_loop_sound (steps : List WorkflowStep)
    (closed : deps_closed steps) :
    ∀ (ss : List WorkflowStep) (v : List String),
    (∀ s ∈ ss, s.step_id ∈ step_ids steps) →
    check_circular_loop steps (steps.length + 1) ss v = true →
    has_cycle steps := by
  intro ss
  induction ss with
  | nil => intro v _ h; simp [check_circular_loop] at h
  | cons s ss ih =>
    intro v hids h
    simp only [check_circular_loop] at h
    by_cases hv : memB s.step_id v
    · simp only [hv, if_true] at h
      exact ih _ (fun t ht => hids t (List.mem_cons_of_mem s ht)) h
    · simp only [hv, Bool.false_eq_true, if_false] at h
      rcases hb : (has_circular_dependency steps (steps.length + 1)
          s.step_id v []).1 with _ | _
      · rw [hb] at h
        simp only [Bool.false_eq_true, if_false] at h
        exact ih _ (fun t ht => hids t (List.mem_cons_of_mem s ht)) h
      · exact hcd_sound steps closed (steps.length + 1) s.step_id v []
          (by have := fresh_count_le steps v; omega)
          (hids s (List.mem_cons_self s ss))
          (List.chain'_singleton s.step_id) hb

theorem check_circular_loop_complete (steps : List WorkflowStep) :
    ∀ (fuel : Nat) (ss : List WorkflowStep) (v : List String),
    check_circular_loop steps fuel ss v = false →
    visited_cycle_free steps v [] →
    ∀ a, (a ∈ v ∨ ∃ s ∈ ss, s.step_id = a) → cycle_free steps a := by
  intro fuel ss
  induction ss with
  | nil =>
    intro v _ hinv a ha
    rcases ha with hav | ⟨s, hs, _⟩
    · exact hinv a hav (by simp)
    · simp at hs
  | cons s ss ih =>
    intro v h hinv a ha
    simp only [check_circular_loop] at h
    by_cases hv : memB s.step_id v
    · simp only [hv, if_true] at h
      refine ih v h hinv a ?_
      rcases ha with hav | ⟨t, ht, hta⟩
      · exact Or.inl hav
      · rcases List.mem_cons.mp ht with rfl | ht'
        · subst hta
          exact Or.inl (by simpa [memB] using hv)
        · exact Or.inr ⟨t, ht', hta⟩
    · simp only [hv, Bool.false_eq_true, if_false] at h
      rcases hb : (has_circular_dependency steps fuel s.step_id v []).1
        with _ | _
      · rw [hb] at h
        simp only [Bool.false_eq_true, if_false] at h
        have hc := hcd_complete steps fuel s.step_id v []
          (has_circular_dependency steps fuel s.step_id v []).2
          (by rw [← hb]) hinv
        obtain ⟨hsub, hmem, -, hinv'⟩ := hc
        refine ih _ h hinv' a ?_
        rcases ha with hav | ⟨t, ht, hta⟩
        · exact Or.inl (hsub hav)
        · rcases List.mem_cons.mp ht with rfl | ht'
          · subst hta
            exact Or.inl hmem
          · exact Or.inr ⟨t, ht', hta⟩
      · rw [hb] at h
        simp at h

theorem cycle_node_is_root (steps : List WorkflowStep) {a : String}
    (h : Relation.TransGen (step_edge steps) a a) :
    ∃ s ∈ steps, s.step_id = a := by
  rcases Relation.TransGen.head'_iff.mp h with ⟨b, hab, -⟩
  unfold step_edge deps_of at hab
  rcases hf : steps.find? (fun s => s.step_id == a) with _ | s
  · rw [hf] at hab; simp at hab
  · refine ⟨s, List.mem_of_find?_eq_some hf, ?_⟩
    have := List.find?_some hf
    simpa using this

theorem check_circular_iff (steps : List WorkflowStep)
    (closed : deps_closed steps) :
    check_circular_dependencies steps = true ↔ has_cycle steps := by
  constructor
  · intro h
    exact check_circular_loop_sound steps closed steps []
      (fun s hs => List.mem_map_of_mem (fun t => t.step_id) hs) h
  · intro ⟨a, hcyc⟩
    rcases hb : check_circular_dependencies steps with _ | _
    · exfalso
      have hfree := check_circular_loop_complete steps (steps.length + 1)
        steps [] hb (by intro a ha; simp at ha) a
        (Or.inr (cycle_node_is_root steps hcyc))
      exact hfree ⟨a, Relation.ReflTransGen.refl, hcyc⟩
    · rfl

theorem dedup_length_iff (l : List String) :
    l.dedup.length = l.length ↔ l.Nodup := by
  constructor
  · intro h
    have hs := List.dedup_sublist l
    have he := hs.eq_of_length h
    rw [← he]
    exact List.nodup_dedup l
  · intro h
    rw [List.dedup_eq_self.mpr h]

theorem first_dangling_none_iff (steps : List WorkflowStep) :
    first_dangling steps = none ↔ deps_closed steps := by
  unfold first_dangling
  rw [List.findSome?_eq_none_iff]
  constructor
  · intro h s hs d hd
    have := h s hs
    rw [Option.map_eq_none'] at this
    rw [List.find?_eq_none] at this
    have hD := this d hd
    simp only [Bool.not_eq_true', Bool.not_eq_false] at hD
    simpa [memB, step_ids] using hD
  · intro h s hs
    rw [Option.map_eq_none', List.find?_eq_none]
    intro d hd
    simp only [Bool.not_eq_true', Bool.not_eq_false]
    have := h s hs d hd
    simpa [memB, step_ids] using this

theorem validate_none_iff (steps : List WorkflowStep) :
    validate_workflow_definition steps = none ↔
      ((step_ids steps).Nodup ∧ deps_closed steps ∧ ¬ has_cycle steps) := by
  unfold validate_workflow_definition
  by_cases hdup : (steps.map (fun s => s.step_id)).dedup.length = steps.length
  · simp only [hdup, ne_eq, not_true_eq_false, if_false]
    have hnodup : (step_ids steps).Nodup := by
      rw [← dedup_length_iff]
      unfold step_ids
      rw [hdup, List.length_map]
    rcases hdang : first_dangling steps with _ | sd
    · have hclosed : deps_closed steps := (first_dangling_none_iff steps).mp hdang
      rcases hcirc : check_circular_dependencies steps with _ | _
      · simp only [Bool.false_eq_true, if_false]
        have : ¬ has_cycle steps := by
          intro hcy
          rw [(check_circular_iff steps hclosed).mpr hcy] at hcirc
          exact Bool.true_eq_false.mp hcirc
        simp [hnodup, hclosed, this]
      · simp only [if_true]
        have hcy := (check_circular_iff steps hclosed).mp hcirc
        simp [hcy]
    · constructor
      · intro h; simp at h
      · rintro ⟨-, hclosed, -⟩
        rw [(first_dangling_none_iff steps).mpr hclosed] at hdang
        simp at hdang
  · simp only [ne_eq, hdup, not_false_eq_true, if_true]
    constructor
    · intro h; simp at h
    · rintro ⟨hnodup, -, -⟩
      exfalso
      apply hdup
      have hlen : (List.map (fun s => s.step_id) steps).dedup.length =
          (List.map (fun s => s.step_id) steps).length :=
        (dedup_length_iff _).mpr hnodup
      rw [hlen, List.length_map]

/-- C7 counterexample: a definition with no duplicate ids, no dangling
dependency and no cycle is nevertheless rejected at construction when its
`timeout_minutes` violates the pydantic bound `ge=1, le=480` (models.py
line 195): with `timeout_minutes = 0` (or 481) `create_workflow` raises a
`ValidationError` instead of accepting, so "every definition free of these
defects is accepted" fails; the same definition with the in-range default
30 is accepted. -/
theorem c7_defect_free_rejected_by_timeout_bound :
    (step_ids wf_ind_steps).Nodup ∧ deps_closed wf_ind_steps ∧
    ¬ has_cycle wf_ind_steps ∧
    (create_workflow "ind" "Ind" "ind" wf_ind_steps 0 false).isOk = false ∧
    (create_workflow "ind" "Ind" "ind" wf_ind_steps 481 false).isOk = false ∧
    (create_workflow "ind" "Ind" "ind" wf_ind_steps 30 false).isOk = true := by
  have h := (validate_none_iff wf_ind_steps).mp (by decide)
  exact ⟨h.1, h.2.1, h.2.2, by decide, by decide, by decide⟩

/-- C7 (corrected, amended): `create_workflow` succeeds exactly when the
step list has no duplicate step ids, no dependency naming an absent step
id, no dependency cycle, and the workflow timeout lies within the declared
pydantic bounds `1 <= timeout_minutes <= 480`; each defect makes the call
raise synchronously (duplicate-id `WorkflowError`, a
`WorkflowDependencyError` for dangling dependencies and cycles, or
the pydantic `ValidationError` for an out-of-range timeout when the
`WorkflowDefinition` is constructed) before any definition is registered
or executed. -/
theorem c7_create_workflow_validation (wid nm desc : String)
    (steps : List WorkflowStep) (tm : Nat) (pe : Bool) :
    (create_workflow wid nm desc steps tm pe).isOk = true ↔
      ((step_ids steps).Nodup ∧ deps_closed steps ∧ ¬ has_cycle steps ∧
       1 ≤ tm ∧ tm ≤ 480) := by
  unfold create_workflow
  rcases hval : validate_workflow_definition steps with _ | e
  · simp only [hval]
    have hv := (validate_none_iff steps).mp hval
    by_cases htm : tm < 1 ∨ 480 < tm
    · rw [if_pos htm]
      simp only [Except.isOk, Except.toBool]
      constructor
      · intro h
        simp at h
      · rintro ⟨-, -, -, h1, h2⟩
        omega
    · rw [if_neg htm]
      simp only [Except.isOk, Except.toBool]
      constructor
      · intro _
        push_neg at htm
        exact ⟨hv.1, hv.2.1, hv.2.2, by omega, by omega⟩
      · intro _
        trivial
  · simp only [hval]
    simp only [Except.isOk, Except.toBool]
    constructor
    · intro h
      simp at h
    · rintro ⟨h1, h2, h3, -, -⟩
      have hnone : validate_workflow_definition steps = none :=
        (validate_none_iff steps).mpr ⟨h1, h2, h3⟩
      rw [hval] at hnone
      simp at hnone
